import Mathlib

/-!
Shallow embedding of the PointsPilot scoring engine
(`src/points_engine.py`) and proofs about the claims of its
specification.

Conventions of the embedding:
* Python strings are Lean `String`s; a value that may be a pandas `NaN`
  (non-string cell) is an `Option String` with `none` for `NaN`.
* Python floats (amounts and multipliers) are embedded as `ℚ`.
  `round(x, n)` is embedded as exact decimal rounding on `ℚ`.
* Substring containment (`needle in hay`) is `List.IsInfix` on the
  character lists of the strings.
* The pandas column operations in the source are all row-independent
  (boolean masks, row-wise `apply`, index-aligned assignment), so they
  are embedded as `List.filter` / `List.map` over lists of records.
-/

namespace PointsPilot

/-- The float literal `1.5` of the source, written in the kernel-reducible
normal form `mkRat 3 2` (equal to `3 / 2 : ℚ`, see `threeHalves_eq`). -/
def threeHalves : ℚ := mkRat 3 2

/-- The float literal `0.01` of the source, written in the kernel-reducible
normal form `mkRat 1 100` (equal to `1 / 100 : ℚ`). -/
def oneHundredth : ℚ := mkRat 1 100

theorem threeHalves_eq : threeHalves = 3 / 2 := by
  simp [threeHalves, Rat.mkRat_eq_div]

theorem oneHundredth_eq : oneHundredth = 1 / 100 := by
  simp [oneHundredth, Rat.mkRat_eq_div]

/-- Whitespace characters removed by Python `str.strip`. -/
def isWS (c : Char) : Bool :=
  c = ' ' || c = '\t' || c = '\n' || c = '\r' || c = '\x0b' || c = '\x0c'

/-- Python `str.lower` on a character list (ASCII lowering, as in the data). -/
def lowerL (l : List Char) : List Char := l.map Char.toLower

/-- Python `str.strip` on a character list. -/
def trimL (l : List Char) : List Char :=
  ((l.dropWhile isWS).reverse.dropWhile isWS).reverse

/-- Python `str.lower`. -/
def lowerS (s : String) : String := ⟨lowerL s.data⟩

/-- Python `str.strip`. -/
def trimS (s : String) : String := ⟨trimL s.data⟩

/-- Python `needle in hay` substring test. -/
def containsB (hay needle : String) : Bool :=
  decide (needle.data <:+: hay.data)

/-- One step of Python `str.title`: the boolean records whether the previous
character was a cased (alphabetic) character. -/
def titleL : Bool → List Char → List Char
  | _, [] => []
  | prevAlpha, c :: cs =>
    (if c.isAlpha then (if prevAlpha then c.toLower else c.toUpper) else c)
      :: titleL c.isAlpha cs

/-- Python `str.title`. -/
def titleS (s : String) : String := ⟨titleL false s.data⟩

/-- Python `str(x)` for a possibly-`NaN` cell: `str(nan)` is `"nan"`. -/
def pyStr : Option String → String
  | none => "nan"
  | some s => s

/-- Python `", ".join(lst)`. -/
def joinComma : List String → String
  | [] => ""
  | [x] => x
  | x :: y :: xs => x ++ ", " ++ joinComma (y :: xs)

/-! ## Data model

`Rule` is one record of the flattened rule table (`rules_df`), `RewardEntry`
and `CardConfig` mirror one card block of `earn_rules.yaml` (an entry whose
yaml lacks a `multiplier` key carries `none`). -/

structure Rule where
  card_name : String
  category : String
  multiplier : ℚ
deriving DecidableEq

structure RewardEntry where
  category : String
  multiplier : Option ℚ
deriving DecidableEq

structure CardConfig where
  card_name : String
  rewards : List RewardEntry
  base_rate : ℚ
deriving DecidableEq

/-- `load_rules` of the source: flattens the card configuration into one
record per (card, category) pair; a reward entry without a `multiplier` key
falls back to the card's `base_rate` (`details.get("multiplier",
card.get("base_rate", 1))`).  The file I/O is outside the embedding. -/
def load_rules (cards : List CardConfig) : List Rule :=
  cards.flatMap fun card =>
    card.rewards.map fun e =>
      { card_name := card.card_name
        category := e.category
        multiplier := e.multiplier.getD card.base_rate }

/-! ## Category normalisation -/

/-- The keyword table of `infer_category_from_name`, in source order. -/
def keywordTable : List (String × List String) :=
  [("Dining", ["cafe", "coffee", "restaurant", "bar", "grill", "pizza", "bistro", "pub"]),
   ("Groceries", ["whole foods", "trader joe", "aldi", "wegmans", "safeway", "kroger",
                  "grocery", "supermarket"]),
   ("Gas Stations", ["shell", "exxon", "chevron", "marathon", "bp", "sunoco", "mobil"]),
   ("Drugstores", ["cvs", "walgreens", "rite aid", "pharmacy"]),
   ("Entertainment", ["amc", "theater", "netflix", "spotify", "concert", "bowling", "museum"]),
   ("Travel", ["uber", "lyft", "delta", "united", "marriott", "hilton", "airbnb", "sixt",
               "hertz"]),
   ("Transit/Tolls", ["ez pass", "e-zpass", "turnpike", "toll", "parking", "septa", "mta",
                      "transit", "metro", "train", "bus"]),
   ("Shopping", ["amazon", "target", "walmart", "costco", "ikea", "best buy", "store",
                 "mall"]),
   ("Personal Care", ["hair", "salon", "spa", "massage", "barber", "nail"]),
   ("Misc", ["venmo", "zelle", "cash app", "atm", "fee", "transfer"])]

/-- `infer_category_from_name`: first keyword-table category with a hit in the
lower-cased merchant name; `"Other"` for a non-string name or no hit. -/
def infer_category_from_name (name : Option String) : String :=
  match name with
  | none => "Other"
  | some s =>
    let n := lowerS s
    match keywordTable.find? (fun kv => kv.2.any (fun t => containsB n t)) with
    | some kv => kv.1
    | none => "Other"

/-- The alias table `base_map` of `normalize_category`, in source order. -/
def base_map : List (String × String) :=
  [("restaurants", "Dining"),
   ("restaurants & bars", "Dining"),
   ("bars & nightlife", "Dining"),
   ("car/gas", "Gas Stations"),
   ("groceries", "Groceries"),
   ("subscriptions", "Entertainment"),
   ("travel & vacation", "Travel"),
   ("travel", "Travel"),
   ("tolls", "Transit/Tolls"),
   ("parking", "Transit/Tolls"),
   ("entertainment", "Entertainment"),
   ("drugstores", "Drugstores"),
   ("personal care", "Personal Care"),
   ("gifts", "Shopping"),
   ("misc", "Other")]

/-- `normalize_category`: a non-string raw label becomes `"other"`; otherwise
the label is stripped and lower-cased, looked up in `base_map` with fallback
`cat.title()`; if the result is one of the catch-all labels and the merchant
keyword inference found something other than `"Other"`, the inference wins. -/
def normalize_category (cat : Option String) (name : Option String) : String :=
  let c := match cat with
    | some s => lowerS (trimS s)
    | none => "other"
  let inferred := infer_category_from_name name
  let normalized := match base_map.find? (fun kv => kv.1 == c) with
    | some kv => kv.2
    | none => titleS c
  if (normalized == "Misc" || normalized == "Other" || normalized == "Gifts"
       || normalized == "Car/Gas") && inferred != "Other"
  then inferred else normalized

/-- `canonical_category`: substring checks on the lower-cased label. -/
def canonical_category (cat : String) : String :=
  let c := lowerS cat
  if containsB c "restaurant" || containsB c "dining" || containsB c "bar" then "dining"
  else if containsB c "gas" then "gas stations"
  else if containsB c "toll" || containsB c "transit" || containsB c "parking" then
    "transit/tolls"
  else if containsB c "travel" then "travel"
  else trimS c

/-! ## Card identity resolution -/

/-- The exclusion keywords of `match_card_name`, in source order. -/
def exclusionKeywords : List String :=
  ["checking", "savings", "venmo", "paypal", "transfer", "profile", "internal"]

/-- The alias table of `match_card_name`, in source (dict insertion) order. -/
def cardAliases : List (String × String) :=
  [("sapphire", "Sapphire Preferred"),
   ("freedom unlimited", "Freedom Unlimited"),
   ("freedom flex", "Freedom Flex"),
   ("aadvantage", "AAdvantage Platinum Select")]

/-- `match_card_name` (its `valid_cards` parameter is unused in the source and
is dropped here): `none` for a non-string label, for a label containing an
exclusion keyword, and for a label matching no alias. -/
def match_card_name (account : Option String) : Option String :=
  match account with
  | none => none
  | some s =>
    let n := trimS (lowerS s)
    if exclusionKeywords.any (fun e => containsB n e) then none
    else
      match cardAliases.find? (fun kv => containsB n kv.1) with
      | some kv => some kv.2
      | none => none

/-! ## Multiplier helpers -/

/-- The travel-portal keywords of `get_multiplier`, in source order. -/
def portalWords : List String :=
  ["chase travel", "chase portal", "expedia", "ultimate rewards"]

/-- `get_multiplier`: base rule lookup (first matching row, else `1.0`)
followed by the travel-portal, airline and transit/tolls blocks, in source
order.  The rule lookup compares the lower-cased `card_name` column with the
lower-cased stripped card, and the `canonical_category` of the lower-cased
`category` column with the `canonical_category` of the query category. -/
def get_multiplier (card category : String) (rules : List Rule) (name : String) : ℚ :=
  let cardL := trimS (lowerS card)
  let cat := canonical_category category
  let nameL := trimS (lowerS name)
  let base : ℚ :=
    match rules.filter (fun r =>
        lowerS r.card_name == cardL && canonical_category (lowerS r.category) == cat) with
    | [] => 1
    | r :: _ => r.multiplier
  let m1 : ℚ :=
    if containsB cat "travel" then
      if portalWords.any (fun w => containsB nameL w) then base
      else if containsB cardL "freedom unlimited" || containsB cardL "freedom flex" then
        threeHalves
      else if containsB cardL "sapphire preferred" then 2
      else 1
    else base
  let m2 : ℚ :=
    if containsB cardL "aadvantage" && containsB cat "travel" then
      if containsB nameL "american airlines" || containsB nameL "aa.com" then 2 else 1
    else m1
  if containsB cat "transit" || containsB cat "toll" then
    if containsB cardL "freedom unlimited" then threeHalves
    else if containsB cardL "freedom flex" then 1
    else if containsB cardL "sapphire preferred" then 1
    else if containsB cardL "aadvantage" then 1
    else m2
  else m2

/-- The category filter of `get_best_cards` (and the category half of the
lookup in `get_multiplier`): rows whose canonicalised category equals the
canonicalised query category. -/
def categoryMatches (category : String) (rules : List Rule) : List Rule :=
  rules.filter (fun r =>
    canonical_category (lowerS r.category) == canonical_category category)

/-- The three index-aligned `.loc` assignments of `get_best_cards`, applied to
one row (`cat` and `nameL` are the already canonicalised category and the
already lower-cased stripped merchant name): the AAdvantage reset to `1.0`
when the merchant is not American Airlines, the unconditional cap of
freedom/sapphire rows at `2.0`, and the transit/tolls reset of
freedom unlimited rows to `1.5` — in source order. -/
def adjustRow (cat nameL : String) (r : Rule) : Rule :=
  let cardL := lowerS r.card_name
  let m1 : ℚ :=
    if containsB cat "travel"
        && !(containsB nameL "american airlines" || containsB nameL "aa.com")
        && containsB cardL "aadvantage"
    then 1 else r.multiplier
  let m2 : ℚ :=
    if containsB cat "travel" && (containsB cardL "freedom" || containsB cardL "sapphire")
    then (if m1 > 2 then 2 else m1) else m1
  let m3 : ℚ :=
    if (containsB cat "transit" || containsB cat "toll") && containsB cardL "freedom unlimited"
    then threeHalves else m2
  { r with multiplier := m3 }

/-- The category-matching rows after the adjustments of `get_best_cards`. -/
def adjustedMatches (category : String) (rules : List Rule) (name : String) : List Rule :=
  (categoryMatches category rules).map
    (adjustRow (canonical_category category) (trimS (lowerS name)))

/-- `get_best_cards`: the adjusted category rows; if none, the sentinel
`(["None"], 1.0)`; otherwise the column maximum of the adjusted multipliers
and the names of all rows attaining it (in row order, ties preserved). -/
def get_best_cards (category : String) (rules : List Rule) (name : String) :
    List String × ℚ :=
  match adjustedMatches category rules name with
  | [] => (["None"], 1)
  | r :: rs =>
    let maxMult := rs.foldl (fun acc x => max acc x.multiplier) r.multiplier
    (((r :: rs).filter (fun x => decide (x.multiplier = maxMult))).map
       (fun x => x.card_name),
     maxMult)

/-! ## The scoring pipeline of compute_points -/

/-- Exact decimal rounding standing for pandas `.round(2)`. -/
def round2 (x : ℚ) : ℚ := (round (x * 100) : ℤ) / 100

/-- Exact decimal rounding standing for pandas `.round(1)`. -/
def round1 (x : ℚ) : ℚ := (round (x * 10) : ℤ) / 10

/-- One input row of `raw_transactions.csv` after the column clean-up of
`compute_points` (`account` renamed to `card_used`, `amount` already through
`pd.to_numeric(...).fillna(0)`).  String cells that may be `NaN` are
`Option String`. -/
structure Row where
  name : Option String
  category : Option String
  card_used : Option String
  type : Option String
  amount : ℚ
deriving DecidableEq

/-- The name/category exclusion keywords of `compute_points`, in source
order. -/
def exclude_keywords : List String :=
  ["transfer", "payment", "pay", "thank you", "refund",
   "credit", "balance", "adjustment", "reversal"]

/-- pandas `col.str.contains("|".join(kws), case=False, na=False)` for a cell:
`false` on `NaN`, otherwise any keyword contained in the lower-cased cell
(the keywords are all lower-case and contain no regex metacharacters). -/
def containsAnyCI (s : Option String) (kws : List String) : Bool :=
  match s with
  | none => false
  | some s => kws.any (fun k => containsB (lowerS s) k)

/-- The row filter of `compute_points`: mapped card present, non-negligible
amount, no transfer type, no excluded keyword in the merchant name or in the
raw category. -/
def keepRow (r : Row) : Bool :=
  (match_card_name r.card_used).isSome
  && decide (oneHundredth < |r.amount|)
  && !(containsAnyCI r.type ["transfer"])
  && !(containsAnyCI r.name exclude_keywords)
  && !(containsAnyCI r.category exclude_keywords)

/-- One output row of `compute_points` (its scoring columns). -/
structure Scored where
  row : Row
  card_mapped : String
  normalized_category : String
  best_cards_list : List String
  best_card : String
  best_rate : ℚ
  used_rate : ℚ
  points_earned : ℚ
  optimal_points : ℚ
  missed_points : ℚ
  optimal_used : Bool
deriving DecidableEq

/-- The per-row scoring columns of `compute_points`: normalised category,
best cards and best rate, used rate, rounded earned/optimal points, missed
points clipped at zero, and the `optimal_used` flag
(`str(card_mapped).lower() in str(best_card).lower()`). -/
def scoreRow (rules : List Rule) (r : Row) (card : String) : Scored :=
  let ncat := normalize_category r.category r.name
  let bb := get_best_cards ncat rules (pyStr r.name)
  let usedRate := get_multiplier card ncat rules (pyStr r.name)
  let bestCard := joinComma bb.1
  let earned := round2 (r.amount * usedRate)
  let optimal := round2 (r.amount * bb.2)
  { row := r
    card_mapped := card
    normalized_category := ncat
    best_cards_list := bb.1
    best_card := bestCard
    best_rate := bb.2
    used_rate := usedRate
    points_earned := earned
    optimal_points := optimal
    missed_points := max 0 (optimal - earned)
    optimal_used := containsB (lowerS bestCard) (lowerS card) }

/-- The scored-transaction list produced by `compute_points`: rows that
survive the filter, scored with their resolved card. -/
def compute_points_scored (rules : List Rule) (rows : List Row) : List Scored :=
  rows.filterMap fun r =>
    if keepRow r then (match_card_name r.card_used).map (scoreRow rules r) else none

/-- One row of the `card_summary.csv` table.  `optimization_rate` is
`Option ℚ` with `none` standing for the float `NaN` that pandas produces
when `Points_Earned + Missed_Points` is zero. -/
structure CardSummary where
  card : String
  transactions_count : ℕ
  total_spend : ℚ
  points_earned : ℚ
  missed_points : ℚ
  optimization_rate : Option ℚ
deriving DecidableEq

/-- One summary row of the `groupby("card_mapped")` aggregation plus the
`Optimization_Rate` column. -/
def summaryRowFor (ts : List Scored) (k : String) : CardSummary :=
  let g := ts.filter (fun t => decide (t.card_mapped = k))
  let e := (g.map (fun t => t.points_earned)).sum
  let m := (g.map (fun t => t.missed_points)).sum
  { card := k
    transactions_count := g.length
    total_spend := (g.map (fun t => t.row.amount)).sum
    points_earned := e
    missed_points := m
    optimization_rate :=
      if e + m = 0 then none else some (round1 (e / (e + m) * 100)) }

/-- The card summary of `compute_points`: one row per distinct mapped card
(pandas sorts the group keys; only the row order differs, which none of the
claims depend on). -/
def compute_points_summary (ts : List Scored) : List CardSummary :=
  ((ts.map (fun t => t.card_mapped)).dedup).map (summaryRowFor ts)

/-! ## Helper lemmas -/

theorem round2_intCast (n : ℤ) : round2 ((n : ℚ)) = n := by
  have h : ((n : ℚ)) * 100 = ((n * 100 : ℤ) : ℚ) := by push_cast; ring
  rw [round2, h, round_intCast]
  push_cast
  field_simp

theorem round2_eq_self {x : ℚ} (n : ℤ) (h : x = (n : ℚ)) : round2 x = x := by
  rw [h, round2_intCast]

theorem round2_mono {x y : ℚ} (h : x ≤ y) : round2 x ≤ round2 y := by
  have h1 : x * 100 ≤ y * 100 := by nlinarith
  have h2 : round (x * 100) ≤ round (y * 100) := by
    rw [round_eq, round_eq]
    exact Int.floor_mono (by linarith)
  rw [round2, round2]
  have h3 : ((round (x * 100) : ℤ) : ℚ) ≤ ((round (y * 100) : ℤ) : ℚ) := by
    exact_mod_cast h2
  linarith

theorem mem_scored_elim {rules : List Rule} {rows : List Row} {t : Scored}
    (h : t ∈ compute_points_scored rules rows) :
    ∃ r card, r ∈ rows ∧ keepRow r = true ∧ match_card_name r.card_used = some card
      ∧ t = scoreRow rules r card := by
  simp only [compute_points_scored, List.mem_filterMap] at h
  obtain ⟨r, hr, hf⟩ := h
  by_cases hk : keepRow r
  · rw [if_pos hk, Option.map_eq_some'] at hf
    obtain ⟨card, hc, hs⟩ := hf
    exact ⟨r, card, hr, hk, hc, hs.symm⟩
  · rw [if_neg hk] at hf
    exact absurd hf (Option.noConfusion)

theorem scored_singleton (rules : List Rule) (r : Row) (card : String)
    (h1 : keepRow r = true) (h2 : match_card_name r.card_used = some card) :
    compute_points_scored rules [r] = [scoreRow rules r card] := by
  simp [compute_points_scored, h1, h2]

/-! ## Concrete fixtures used by witnesses and counterexamples -/

/-- A one-card rule table: Sapphire Preferred earns 3x on dining. -/
def rulesA : List Rule := [⟨"Sapphire Preferred", "dining", 3⟩]

/-- A plain dining transaction on the Sapphire card. -/
def rowA : Row :=
  ⟨some "Joe Pizza", some "restaurants", some "sapphire card", some "regular", 50⟩

/-- The scored output of `rowA` under `rulesA`. -/
def scoredA : Scored := scoreRow rulesA rowA "Sapphire Preferred"

theorem scoredA_mem : scoredA ∈ compute_points_scored rulesA [rowA] := by
  rw [scoredA, scored_singleton rulesA rowA "Sapphire Preferred" (by decide) (by decide)]
  exact List.mem_singleton.mpr rfl

/-! ## Claims -/

/-- C2: for every scored transaction, `missed_points` equals
`optimal_points - points_earned` clamped to zero, hence is never negative. -/
theorem c2_missed_points_clamped (rules : List Rule) (rows : List Row) (t : Scored)
    (ht : t ∈ compute_points_scored rules rows) :
    t.missed_points = max 0 (t.optimal_points - t.points_earned)
      ∧ 0 ≤ t.missed_points := by
  obtain ⟨r, card, _, _, _, rfl⟩ := mem_scored_elim ht
  exact ⟨rfl, le_max_left 0 _⟩

/-- Witness for C2 at a concrete transaction. -/
theorem c2_witness :
    scoredA.missed_points = max 0 (scoredA.optimal_points - scoredA.points_earned)
      ∧ 0 ≤ scoredA.missed_points :=
  c2_missed_points_clamped rulesA [rowA] scoredA scoredA_mem

/-- A rule table with a portal-only 5x travel rate on Sapphire Preferred,
as envisioned by the specification's travel-portal scenarios. -/
def rulesC1 : List Rule := [⟨"Sapphire Preferred", "Travel", 5⟩]

/-- A travel purchase made through the Chase travel portal on the Sapphire
card. -/
def rowC1 : Row :=
  ⟨some "Chase Travel Portal", some "travel", some "sapphire card", some "regular", 100⟩

/-- C1: refuted on the code.  For a travel transaction whose merchant is the
Chase travel portal, `get_multiplier` keeps the table's 5x portal rate, but
`get_best_cards` caps every freedom/sapphire row at 2x regardless of the
merchant text, so the scored transaction has `used_rate = 5` strictly above
`best_rate = 2`: the category-conditional capping is not applied
consistently, and `best_rate >= used_rate` fails. -/
theorem c1_portal_capping_code_bug :
    get_multiplier "Sapphire Preferred" "Travel" rulesC1 "Chase Travel Portal" = 5
      ∧ get_best_cards "Travel" rulesC1 "Chase Travel Portal" = (["Sapphire Preferred"], 2)
      ∧ (compute_points_scored rulesC1 [rowC1]).map (fun t => (t.used_rate, t.best_rate))
          = [(5, 2)] := by
  exact ⟨by decide, by decide, by decide⟩

/-- C10: when no rule row matches the final category, `get_best_cards`
returns the sentinel `(["None"], 1)`; yet for a transit/tolls category
`get_multiplier` still forces `1.5` for a Freedom Unlimited card, so
`used_rate` exceeds `best_rate` and the missed points
`max 0 (round2 (amount * 1) - round2 (amount * 1.5))` are clamped to zero. -/
theorem c10_empty_category_sentinel (rules : List Rule) (category name card : String)
    (amount : ℚ)
    (hempty : categoryMatches category rules = [])
    (hcat : canonical_category category = "transit/tolls")
    (hcard : containsB (trimS (lowerS card)) "freedom unlimited" = true)
    (hamt : 0 ≤ amount) :
    get_best_cards category rules name = (["None"], 1)
      ∧ get_multiplier card category rules name = threeHalves
      ∧ max 0 (round2 (amount * 1) - round2 (amount * threeHalves)) = 0 := by
  have hforall : ∀ r ∈ rules,
      ¬ canonical_category (lowerS r.category) = canonical_category category := by
    simpa [categoryMatches] using hempty
  have hfilter : (rules.filter (fun r =>
      lowerS r.card_name == trimS (lowerS card)
        && canonical_category (lowerS r.category) == canonical_category category)) = [] := by
    rw [List.filter_eq_nil_iff]
    intro r hr hcontra
    rw [Bool.and_eq_true, beq_iff_eq, beq_iff_eq] at hcontra
    exact hforall r hr hcontra.2
  have c1 : containsB (canonical_category category) "travel" = false := by
    rw [hcat]; decide
  have c2 : containsB (canonical_category category) "transit" = true := by
    rw [hcat]; decide
  refine ⟨?_, ?_, ?_⟩
  · simp [get_best_cards, adjustedMatches, hempty]
  · simp [get_multiplier, hfilter, c1, c2, hcard]
  · have hle : amount * 1 ≤ amount * threeHalves := by
      rw [threeHalves_eq]; nlinarith
    have h2 := round2_mono hle
    exact max_eq_left (by linarith)

/-- Witness for C10 at a concrete input: a dining-only rule table, a
transit/tolls category, a Freedom Unlimited card and a positive amount. -/
theorem c10_witness :
    get_best_cards "Transit/Tolls" rulesA "ez pass" = (["None"], 1)
      ∧ get_multiplier "Freedom Unlimited" "Transit/Tolls" rulesA "ez pass" = threeHalves
      ∧ max 0 (round2 ((10 : ℚ) * 1) - round2 ((10 : ℚ) * threeHalves)) = 0 :=
  c10_empty_category_sentinel rulesA "Transit/Tolls" "ez pass" "Freedom Unlimited" 10
    (by decide) (by decide) (by decide) (by norm_num)

/-- A card configured with base rate 2 and a dining-only reward entry. -/
def cfgC5 : List CardConfig := [⟨"Sapphire Preferred", [⟨"dining", some 3⟩], 2⟩]

/-- C5: refuted on the code.  The card of `cfgC5` has configured base rate 2
and no rule-table entry for Groceries, yet `get_multiplier` returns the
hard-coded constant 1, not the card's base rate: the base rate is only used
by `load_rules` for reward entries missing a multiplier and never plumbed to
the lookup fallback. -/
theorem c5_counterexample :
    (cfgC5.map fun c => c.base_rate) = [2]
      ∧ (load_rules cfgC5).filter (fun r =>
          lowerS r.card_name == trimS (lowerS "Sapphire Preferred")
            && canonical_category (lowerS r.category) == canonical_category "Groceries") = []
      ∧ get_multiplier "Sapphire Preferred" "Groceries" (load_rules cfgC5) "" = 1 :=
  ⟨by decide, by decide, by decide⟩

/-- C5 amended: when the rule table has no (card, category) entry the used
rate falls back to the constant 1 (subject to the travel/transit special
cases, which can only produce 1, 1.5 or 2 from there), and is never zero —
but it is not the card's configured base rate. -/
theorem c5_amended_no_entry_fallback (card category name : String) (rules : List Rule)
    (h : rules.filter (fun r =>
        lowerS r.card_name == trimS (lowerS card)
          && canonical_category (lowerS r.category) == canonical_category category) = []) :
    (get_multiplier card category rules name = 1
        ∨ get_multiplier card category rules name = threeHalves
        ∨ get_multiplier card category rules name = 2)
      ∧ get_multiplier card category rules name ≠ 0 := by
  have hval : get_multiplier card category rules name = 1
      ∨ get_multiplier card category rules name = threeHalves
      ∨ get_multiplier card category rules name = 2 := by
    simp only [get_multiplier]
    rw [h]
    split_ifs <;> norm_num
  refine ⟨hval, ?_⟩
  rcases hval with hv | hv | hv <;> rw [hv] <;> norm_num [threeHalves_eq]

/-- Witness for C5's amended claim at a concrete input. -/
theorem c5_witness :
    (get_multiplier "Freedom Flex" "Groceries" [] "" = 1
        ∨ get_multiplier "Freedom Flex" "Groceries" [] "" = threeHalves
        ∨ get_multiplier "Freedom Flex" "Groceries" [] "" = 2)
      ∧ get_multiplier "Freedom Flex" "Groceries" [] "" ≠ 0 :=
  c5_amended_no_entry_fallback "Freedom Flex" "Groceries" "" [] (by decide)

/-- The closed set of category labels the code itself can produce from
resolved inputs: the values of `base_map`, the keys of `keywordTable`, and
`"Other"`. -/
def canonicalCategories : List String :=
  ["Dining", "Groceries", "Gas Stations", "Drugstores", "Entertainment", "Travel",
   "Transit/Tolls", "Shopping", "Personal Care", "Misc", "Other"]

theorem infer_mem (name : Option String) :
    infer_category_from_name name ∈ canonicalCategories := by
  cases name with
  | none => decide
  | some s =>
    simp only [infer_category_from_name]
    cases hfind : keywordTable.find? (fun kv => kv.2.any (fun t => containsB (lowerS s) t)) with
    | none => decide
    | some kv =>
      have hmem := List.mem_of_find?_eq_some hfind
      simp only [keywordTable, List.mem_cons, List.not_mem_nil, or_false] at hmem
      rcases hmem with h | h | h | h | h | h | h | h | h | h <;> subst h <;> decide

/-- C3: refuted on the code.  A raw label absent from the alias table is
returned title-cased (`base_map.get(cat, cat.title())`), so the output can
be an unresolved raw string (`"Dining Out"`), and the empty label is
returned as `""`, not `"Other"`. -/
theorem c3_counterexample :
    normalize_category (some "dining out") (some "") = "Dining Out"
      ∧ "Dining Out" ∉ canonicalCategories
      ∧ normalize_category (some "") (some "") = "" :=
  ⟨by decide, by decide, by decide⟩

/-- C3 amended: the normaliser never fails and stays inside the closed
canonical set whenever the raw label is a non-string (treated as `"other"`)
or is resolved by the alias table; only a string label absent from the alias
table leaks through title-cased. -/
theorem c3_amended_closed_set (cat name : Option String)
    (h : cat = none ∨ ∃ s kv, cat = some s
        ∧ base_map.find? (fun p => p.1 == lowerS (trimS s)) = some kv) :
    normalize_category cat name ∈ canonicalCategories := by
  rcases h with rfl | ⟨s, kv, rfl, hfind⟩
  · have heq : normalize_category none name
        = if infer_category_from_name name != "Other"
          then infer_category_from_name name else "Other" := rfl
    rw [heq]
    split
    · exact infer_mem name
    · decide
  · have hkv2 : kv.2 ∈ canonicalCategories := by
      have hmem := List.mem_of_find?_eq_some hfind
      simp only [base_map, List.mem_cons, List.not_mem_nil, or_false] at hmem
      rcases hmem with h | h | h | h | h | h | h | h | h | h | h | h | h | h | h <;>
        subst h <;> decide
    simp only [normalize_category, hfind]
    split
    · exact infer_mem name
    · exact hkv2

/-- Witness for C3's amended claim at a concrete alias-table label. -/
theorem c3_witness :
    normalize_category (some "restaurants") (some "") ∈ canonicalCategories :=
  c3_amended_closed_set (some "restaurants") (some "")
    (Or.inr ⟨"restaurants", ("restaurants", "Dining"), rfl, by decide⟩)

theorem foldl_max_le_all (l : List Rule) (a : ℚ) :
    a ≤ l.foldl (fun acc x => max acc x.multiplier) a
      ∧ ∀ x ∈ l, x.multiplier ≤ l.foldl (fun acc x => max acc x.multiplier) a := by
  induction l generalizing a with
  | nil => exact ⟨le_refl a, by intro x hx; cases hx⟩
  | cons y l ih =>
    obtain ⟨h1, h2⟩ := ih (max a y.multiplier)
    refine ⟨le_trans (le_max_left a y.multiplier) h1, ?_⟩
    intro x hx
    rcases List.mem_cons.mp hx with rfl | hx
    · exact le_trans (le_max_right a x.multiplier) h1
    · exact h2 x hx

theorem foldl_max_attained (l : List Rule) (a : ℚ) :
    l.foldl (fun acc x => max acc x.multiplier) a = a
      ∨ ∃ x ∈ l, x.multiplier = l.foldl (fun acc x => max acc x.multiplier) a := by
  induction l generalizing a with
  | nil => exact Or.inl rfl
  | cons y l ih =>
    rcases ih (max a y.multiplier) with h1 | ⟨x, hx, hxe⟩
    · rcases max_choice a y.multiplier with hm | hm
      · exact Or.inl (by rw [List.foldl_cons, h1, hm])
      · exact Or.inr ⟨y, List.mem_cons_self y l, by rw [List.foldl_cons, h1, hm]⟩
    · exact Or.inr ⟨x, List.mem_cons_of_mem y hx, hxe⟩

/-- C4: for a category with at least one matching rule row, `best_rate` is
the maximum of the adjusted multipliers over the matching rows, it is
attained, and the best-card list contains exactly the names of the rows
attaining it (ties preserved). -/
theorem c4_best_rate_is_max (category name : String) (rules : List Rule)
    (h : adjustedMatches category rules name ≠ []) :
    (∀ r ∈ adjustedMatches category rules name,
        r.multiplier ≤ (get_best_cards category rules name).2)
      ∧ (∃ r ∈ adjustedMatches category rules name,
          r.multiplier = (get_best_cards category rules name).2)
      ∧ ∀ c, c ∈ (get_best_cards category rules name).1
          ↔ ∃ r ∈ adjustedMatches category rules name,
              r.card_name = c ∧ r.multiplier = (get_best_cards category rules name).2 := by
  obtain ⟨r, rs, heq⟩ := List.exists_cons_of_ne_nil h
  have hbc : get_best_cards category rules name
      = (((r :: rs).filter (fun x =>
            decide (x.multiplier = rs.foldl (fun acc x => max acc x.multiplier) r.multiplier))).map
           (fun x => x.card_name),
         rs.foldl (fun acc x => max acc x.multiplier) r.multiplier) := by
    simp only [get_best_cards, heq]
  rw [heq, hbc]
  refine ⟨?_, ?_, ?_⟩
  · intro x hx
    rcases List.mem_cons.mp hx with rfl | hx
    · exact (foldl_max_le_all rs x.multiplier).1
    · exact (foldl_max_le_all rs r.multiplier).2 x hx
  · rcases foldl_max_attained rs r.multiplier with h1 | ⟨x, hx, hxe⟩
    · exact ⟨r, List.mem_cons_self r rs, h1.symm⟩
    · exact ⟨x, List.mem_cons_of_mem r hx, hxe⟩
  · intro c
    simp only [List.mem_map, List.mem_filter, decide_eq_true_eq]
    constructor
    · rintro ⟨x, ⟨hx, hm⟩, rfl⟩
      exact ⟨x, hx, rfl, hm⟩
    · rintro ⟨x, hx, rfl, hm⟩
      exact ⟨x, ⟨hx, hm⟩, rfl⟩

/-- Witness for C4 on the concrete dining table. -/
theorem c4_witness :
    (∀ r ∈ adjustedMatches "dining" rulesA "",
        r.multiplier ≤ (get_best_cards "dining" rulesA "").2)
      ∧ (∃ r ∈ adjustedMatches "dining" rulesA "",
          r.multiplier = (get_best_cards "dining" rulesA "").2)
      ∧ ∀ c, c ∈ (get_best_cards "dining" rulesA "").1
          ↔ ∃ r ∈ adjustedMatches "dining" rulesA "",
              r.card_name = c ∧ r.multiplier = (get_best_cards "dining" rulesA "").2 :=
  c4_best_rate_is_max "dining" "" rulesA (by decide)

theorem infix_rev {n l : List Char} (h : n <:+: l) : n.reverse <:+: l.reverse := by
  obtain ⟨s, t, rfl⟩ := h
  exact ⟨t.reverse, s.reverse, by simp⟩

theorem infix_dropWhile {n l : List Char} (hn : n ≠ [])
    (hw : ∀ c ∈ n, isWS c = false) (h : n <:+: l) : n <:+: l.dropWhile isWS := by
  induction l with
  | nil => simpa using h
  | cons c l ih =>
    rw [List.dropWhile_cons]
    by_cases hws : isWS c
    · rw [if_pos hws]
      rcases List.infix_cons_iff.mp h with hpre | hinf
      · obtain ⟨d, n', rfl⟩ := List.exists_cons_of_ne_nil hn
        obtain ⟨t, ht⟩ := hpre
        rw [List.cons_append] at ht
        injection ht with h1 _
        have hds := hw d (List.mem_cons_self d n')
        rw [h1, hws] at hds
        cases hds
      · exact ih hinf
    · rw [if_neg hws]
      exact h

theorem infix_trimL (n : List Char) {l : List Char} (hn : n ≠ [])
    (hw : ∀ c ∈ n, isWS c = false) (h : n <:+: l) : n <:+: trimL l := by
  have h1 := infix_dropWhile hn hw h
  have h2 := infix_rev h1
  have hn' : n.reverse ≠ [] := by simpa using hn
  have hw' : ∀ c ∈ n.reverse, isWS c = false := fun c hc => hw c (List.mem_reverse.mp hc)
  have h3 := infix_dropWhile hn' hw' h2
  have h4 := infix_rev h3
  rw [List.reverse_reverse] at h4
  exact h4

theorem match_card_name_excl {label : String}
    (h : containsB (lowerS label) "savings" = true
      ∨ containsB (lowerS label) "checking" = true) :
    match_card_name (some label) = none := by
  have hcontains : exclusionKeywords.any
      (fun e => containsB (trimS (lowerS label)) e) = true := by
    rcases h with h | h
    · have hinf := infix_trimL "savings".data (by decide) (by decide)
        (of_decide_eq_true h)
      exact List.any_eq_true.mpr ⟨"savings", by decide, decide_eq_true hinf⟩
    · have hinf := infix_trimL "checking".data (by decide) (by decide)
        (of_decide_eq_true h)
      exact List.any_eq_true.mpr ⟨"checking", by decide, decide_eq_true hinf⟩
  simp [match_card_name, hcontains]

theorem match_card_name_some_no_excl {s card : String}
    (h : match_card_name (some s) = some card) :
    exclusionKeywords.any (fun e => containsB (trimS (lowerS s)) e) = false := by
  by_cases hany : exclusionKeywords.any (fun e => containsB (trimS (lowerS s)) e) = true
  · rw [match_card_name] at h
    simp only [hany, if_true] at h
    exact Option.noConfusion h
  · simpa using hany

/-- C7: the resolver rejects any label containing "savings" or "checking",
only resolves labels matching a card alias, and consequently no scored
transaction has an account label containing "savings" or "checking". -/
theorem c7_exclusion_correctness :
    (∀ label, (containsB (lowerS label) "savings" = true
          ∨ containsB (lowerS label) "checking" = true)
        → match_card_name (some label) = none)
      ∧ (∀ label card, match_card_name (some label) = some card
        → ∃ kv ∈ cardAliases, containsB (trimS (lowerS label)) kv.1 = true ∧ kv.2 = card)
      ∧ ∀ rules rows t, t ∈ compute_points_scored rules rows
        → ∀ s, t.row.card_used = some s
          → containsB (lowerS s) "savings" = false
            ∧ containsB (lowerS s) "checking" = false := by
  refine ⟨fun label h => match_card_name_excl h, ?_, ?_⟩
  · intro label card h
    have hany := match_card_name_some_no_excl h
    rw [match_card_name] at h
    simp only [hany, Bool.false_eq_true, if_false] at h
    cases hfind : cardAliases.find? (fun kv => containsB (trimS (lowerS label)) kv.1) with
    | none => rw [hfind] at h; cases h
    | some kv =>
      rw [hfind] at h
      injection h with h
      have hp := List.find?_some hfind
      exact ⟨kv, List.mem_of_find?_eq_some hfind, hp, h⟩
  · intro rules rows t ht s hs
    obtain ⟨r, card, _, _, hmatch, rfl⟩ := mem_scored_elim ht
    have hrs : r.card_used = some s := hs
    rw [hrs] at hmatch
    have hany := match_card_name_some_no_excl hmatch
    have hsav : containsB (trimS (lowerS s)) "savings" = false := by
      rcases List.any_eq_false.mp hany "savings" (by decide) with h
      simpa using h
    have hche : containsB (trimS (lowerS s)) "checking" = false := by
      rcases List.any_eq_false.mp hany "checking" (by decide) with h
      simpa using h
    constructor
    · by_contra hc
      rw [Bool.not_eq_false] at hc
      have h2 := infix_trimL "savings".data (by decide) (by decide)
        (of_decide_eq_true hc)
      have h3 : containsB (trimS (lowerS s)) "savings" = true := decide_eq_true h2
      rw [h3] at hsav
      cases hsav
    · by_contra hc
      rw [Bool.not_eq_false] at hc
      have h2 := infix_trimL "checking".data (by decide) (by decide)
        (of_decide_eq_true hc)
      have h3 : containsB (trimS (lowerS s)) "checking" = true := decide_eq_true h2
      rw [h3] at hche
      cases hche

/-- Witness for C7 at concrete labels and the concrete scored pipeline. -/
theorem c7_witness :
    match_card_name (some "Chase Savings") = none
      ∧ (∃ kv ∈ cardAliases, containsB (trimS (lowerS "sapphire card")) kv.1 = true
          ∧ kv.2 = "Sapphire Preferred")
      ∧ (containsB (lowerS "sapphire card") "savings" = false
          ∧ containsB (lowerS "sapphire card") "checking" = false) :=
  ⟨c7_exclusion_correctness.1 "Chase Savings" (Or.inl (by decide)),
   c7_exclusion_correctness.2.1 "sapphire card" "Sapphire Preferred" (by decide),
   c7_exclusion_correctness.2.2 rulesA [rowA] scoredA scoredA_mem "sapphire card" (by decide)⟩

theorem data_append (a b : String) : (a ++ b).data = a.data ++ b.data := rfl

theorem mem_joinComma {x : String} {l : List String} (h : x ∈ l) :
    x.data <:+: (joinComma l).data := by
  induction l with
  | nil => cases h
  | cons y ys ih =>
    cases ys with
    | nil =>
      rw [List.mem_singleton.mp h]
      exact List.infix_refl _
    | cons z zs =>
      rcases List.mem_cons.mp h with rfl | h2
      · refine ⟨[], (", " : String).data ++ (joinComma (z :: zs)).data, ?_⟩
        simp [joinComma, data_append, List.append_assoc]
      · obtain ⟨s, t, hst⟩ := ih h2
        refine ⟨(y.data ++ (", " : String).data) ++ s, t, ?_⟩
        simp only [joinComma, data_append, List.append_assoc, hst]

theorem lowerS_append (a b : String) : lowerS (a ++ b) = lowerS a ++ lowerS b := by
  show String.mk (lowerL (a.data ++ b.data)) = String.mk (lowerL a.data ++ lowerL b.data)
  exact congrArg String.mk (by simp [lowerL])

theorem lowerS_joinComma (l : List String) :
    lowerS (joinComma l) = joinComma (l.map lowerS) := by
  induction l with
  | nil => rfl
  | cons y ys ih =>
    cases ys with
    | nil => rfl
    | cons z zs =>
      show lowerS (y ++ ", " ++ joinComma (z :: zs))
        = joinComma (lowerS y :: (z :: zs).map lowerS)
      rw [lowerS_append, lowerS_append, ih]
      rfl

/-- A rule table whose only card name strictly contains a resolvable card
name as a substring. -/
def rulesC8 : List Rule := [⟨"Sapphire Preferred Plus", "dining", 3⟩]

/-- A dining transaction on the (distinct) Sapphire Preferred card. -/
def rowC8 : Row :=
  ⟨some "Joe Bistro", some "restaurants", some "sapphire card", some "regular", 50⟩

/-- C8: refuted on the code.  The `optimal_used` flag is computed by
substring containment of the lower-cased resolved card in the lower-cased
comma-joined best-card string, so it is `true` for the resolved card
"Sapphire Preferred" against the best-card set ["Sapphire Preferred Plus"]
even though the resolved card is not a member of that set: the flag is not
equivalent to set membership. -/
theorem c8_counterexample :
    (compute_points_scored rulesC8 [rowC8]).map
        (fun t => (t.optimal_used, t.card_mapped, t.best_cards_list))
      = [(true, "Sapphire Preferred", ["Sapphire Preferred Plus"])]
      ∧ "Sapphire Preferred" ∉ (["Sapphire Preferred Plus"] : List String) :=
  ⟨by decide, by decide⟩

/-- C8 amended: membership of the resolved card in the best-card set does
imply the flag (the converse can fail when a best card's name strictly
contains the resolved card's name). -/
theorem c8_amended_membership_implies_flag (rules : List Rule) (rows : List Row)
    (t : Scored) (ht : t ∈ compute_points_scored rules rows)
    (hmem : t.card_mapped ∈ t.best_cards_list) :
    t.optimal_used = true := by
  obtain ⟨r, card, _, _, _, rfl⟩ := mem_scored_elim ht
  show containsB
      (lowerS (joinComma
        (get_best_cards (normalize_category r.category r.name) rules (pyStr r.name)).1))
      (lowerS card) = true
  apply decide_eq_true
  show (lowerS card).data <:+: (lowerS (joinComma _)).data
  rw [lowerS_joinComma]
  exact mem_joinComma (List.mem_map_of_mem lowerS hmem)

/-- Witness for C8's amended claim on the concrete dining pipeline. -/
theorem c8_witness : scoredA.optimal_used = true :=
  c8_amended_membership_implies_flag rulesA [rowA] scoredA scoredA_mem (by decide)

theorem sum_map_add (l : List String) (g h : String → ℚ) :
    (l.map (fun k => g k + h k)).sum = (l.map g).sum + (l.map h).sum := by
  induction l with
  | nil => simp
  | cons k ks ih => simp [ih]; ring

theorem sum_ite_key {keys : List String} {a : String} (hnd : keys.Nodup)
    (ha : a ∈ keys) (c : ℚ) :
    (keys.map (fun k => if a = k then c else 0)).sum = c := by
  induction keys with
  | nil => cases ha
  | cons k ks ih =>
    rw [List.map_cons, List.sum_cons]
    rcases List.mem_cons.mp ha with rfl | hmem
    · rw [if_pos rfl]
      have hnotin : a ∉ ks := (List.nodup_cons.mp hnd).1
      have hzero : (ks.map (fun k => if a = k then c else 0)).sum = 0 := by
        apply List.sum_eq_zero
        intro x hx
        obtain ⟨k', hk', rfl⟩ := List.mem_map.mp hx
        rw [if_neg]
        intro heq
        exact hnotin (heq ▸ hk')
      rw [hzero, add_zero]
    · have hne : a ≠ k := by
        rintro rfl
        exact (List.nodup_cons.mp hnd).1 hmem
      rw [if_neg hne, ih (List.nodup_cons.mp hnd).2 hmem, zero_add]

theorem sum_groups (ts : List Scored) (keys : List String) (f : Scored → ℚ)
    (hnd : keys.Nodup) (hmem : ∀ t ∈ ts, t.card_mapped ∈ keys) :
    (keys.map (fun k =>
        ((ts.filter (fun t => decide (t.card_mapped = k))).map f).sum)).sum
      = (ts.map f).sum := by
  induction ts with
  | nil => simp
  | cons t ts ih =>
    have hstep : ∀ k,
        (((t :: ts).filter (fun t => decide (t.card_mapped = k))).map f).sum
          = (if t.card_mapped = k then f t else 0)
            + ((ts.filter (fun t => decide (t.card_mapped = k))).map f).sum := by
      intro k
      by_cases h : t.card_mapped = k
      · rw [List.filter_cons_of_pos (by simpa using h), List.map_cons, List.sum_cons,
          if_pos h]
      · rw [List.filter_cons_of_neg (by simpa using h), if_neg h, zero_add]
    have hfun : (fun k =>
          (((t :: ts).filter (fun t => decide (t.card_mapped = k))).map f).sum)
        = fun k => (if t.card_mapped = k then f t else 0)
            + ((ts.filter (fun t => decide (t.card_mapped = k))).map f).sum :=
      funext hstep
    rw [hfun, sum_map_add, sum_ite_key hnd (hmem t (List.mem_cons_self t ts)) (f t),
      ih (fun x hx => hmem x (List.mem_cons_of_mem t hx)), List.map_cons, List.sum_cons]

theorem summary_sum_eq (ts : List Scored) (f : Scored → ℚ) (g : CardSummary → ℚ)
    (hfg : ∀ k, g (summaryRowFor ts k)
      = ((ts.filter (fun t => decide (t.card_mapped = k))).map f).sum) :
    ((compute_points_summary ts).map g).sum = (ts.map f).sum := by
  rw [compute_points_summary, List.map_map]
  have hfun : (g ∘ summaryRowFor ts)
      = fun k => ((ts.filter (fun t => decide (t.card_mapped = k))).map f).sum :=
    funext hfg
  rw [hfun]
  exact sum_groups ts _ f (List.nodup_dedup _)
    (fun t ht => List.mem_dedup.mpr (List.mem_map_of_mem _ ht))

/-- C9: summing Points_Earned (resp. Missed_Points) over the per-card
summary rows equals summing points_earned (resp. missed_points) directly
over all scored transactions: the groupby aggregation neither double-counts
nor loses a row. -/
theorem c9_aggregation_roundtrip (ts : List Scored) :
    ((compute_points_summary ts).map (fun s => s.points_earned)).sum
        = (ts.map (fun t => t.points_earned)).sum
      ∧ ((compute_points_summary ts).map (fun s => s.missed_points)).sum
        = (ts.map (fun t => t.missed_points)).sum :=
  ⟨summary_sum_eq ts _ _ (fun _ => rfl), summary_sum_eq ts _ _ (fun _ => rfl)⟩

theorem scoreRow_points_earned (rules : List Rule) (r : Row) (card : String) :
    (scoreRow rules r card).points_earned
      = round2 (r.amount * (scoreRow rules r card).used_rate) := rfl

theorem scoreRow_optimal_points (rules : List Rule) (r : Row) (card : String) :
    (scoreRow rules r card).optimal_points
      = round2 (r.amount * (scoreRow rules r card).best_rate) := rfl

theorem scoreRow_missed_points (rules : List Rule) (r : Row) (card : String) :
    (scoreRow rules r card).missed_points
      = max 0 ((scoreRow rules r card).optimal_points
          - (scoreRow rules r card).points_earned) := rfl

theorem summaryRowFor_self (t : Scored) :
    summaryRowFor [t] t.card_mapped
      = ⟨t.card_mapped, 1, t.row.amount, t.points_earned, t.missed_points,
         if t.points_earned + t.missed_points = 0 then none
         else some (round1 (t.points_earned
           / (t.points_earned + t.missed_points) * 100))⟩ := by
  simp [summaryRowFor]

theorem scoredA_earned : scoredA.points_earned = 150 := by
  have hu : scoredA.used_rate = 3 := by decide
  rw [scoredA, scoreRow_points_earned, ← scoredA, hu]
  rw [show rowA.amount = (50 : ℚ) from rfl]
  rw [show (50 : ℚ) * 3 = ((150 : ℤ) : ℚ) by norm_num, round2_intCast]
  norm_num

theorem scoredA_optimal : scoredA.optimal_points = 150 := by
  have hb : scoredA.best_rate = 3 := by decide
  rw [scoredA, scoreRow_optimal_points, ← scoredA, hb]
  rw [show rowA.amount = (50 : ℚ) from rfl]
  rw [show (50 : ℚ) * 3 = ((150 : ℤ) : ℚ) by norm_num, round2_intCast]
  norm_num

theorem scoredA_missed : scoredA.missed_points = 0 := by
  rw [scoredA, scoreRow_missed_points, ← scoredA, scoredA_optimal, scoredA_earned]
  simp

/-- A rule table whose only entry has multiplier zero. -/
def rulesC6 : List Rule := [⟨"Sapphire Preferred", "groceries", 0⟩]

/-- A groceries transaction on the zero-multiplier card. -/
def rowC6 : Row :=
  ⟨some "Wegmans Market", some "groceries", some "sapphire card", some "regular", 10⟩

/-- C6: refuted on the code.  With zero points earned and zero points
missed, pandas divides 0 by 0 and the optimization rate is NaN (embedded as
`none`), not the 0 the claim requires. -/
theorem c6_counterexample :
    (compute_points_summary (compute_points_scored rulesC6 [rowC6])).map
        (fun s => (s.points_earned, s.missed_points, s.optimization_rate))
      = [(0, 0, none)] := by
  rw [scored_singleton rulesC6 rowC6 "Sapphire Preferred" (by decide) (by decide)]
  have hu : (scoreRow rulesC6 rowC6 "Sapphire Preferred").used_rate = 0 := by decide
  have hb : (scoreRow rulesC6 rowC6 "Sapphire Preferred").best_rate = 0 := by decide
  have he : (scoreRow rulesC6 rowC6 "Sapphire Preferred").points_earned = 0 := by
    rw [scoreRow_points_earned, hu, mul_zero]
    simpa using round2_intCast 0
  have ho : (scoreRow rulesC6 rowC6 "Sapphire Preferred").optimal_points = 0 := by
    rw [scoreRow_optimal_points, hb, mul_zero]
    simpa using round2_intCast 0
  have hm : (scoreRow rulesC6 rowC6 "Sapphire Preferred").missed_points = 0 := by
    rw [scoreRow_missed_points, ho, he]
    simp
  rw [compute_points_summary]
  rw [show ([scoreRow rulesC6 rowC6 "Sapphire Preferred"].map
      (fun t => t.card_mapped)).dedup
    = [(scoreRow rulesC6 rowC6 "Sapphire Preferred").card_mapped] by simp]
  rw [List.map_cons, List.map_nil, summaryRowFor_self, List.map_cons, List.map_nil]
  rw [he, hm]
  norm_num

/-- C6 amended: the optimization rate equals
`round1(earned / (earned + missed) * 100)` whenever the denominator is
nonzero; when the denominator is zero it is NaN (`none`), not 0. -/
theorem c6_amended_optimization_rate (ts : List Scored) (s : CardSummary)
    (hs : s ∈ compute_points_summary ts)
    (h : s.points_earned + s.missed_points ≠ 0) :
    s.optimization_rate
      = some (round1 (s.points_earned
          / (s.points_earned + s.missed_points) * 100)) := by
  rw [compute_points_summary] at hs
  obtain ⟨k, hk, rfl⟩ := List.mem_map.mp hs
  have heq : (summaryRowFor ts k).optimization_rate
      = if (summaryRowFor ts k).points_earned + (summaryRowFor ts k).missed_points = 0
        then none
        else some (round1 ((summaryRowFor ts k).points_earned
          / ((summaryRowFor ts k).points_earned
              + (summaryRowFor ts k).missed_points) * 100)) := rfl
  rw [heq, if_neg h]

/-- The summary row of the concrete dining pipeline. -/
def sumA : CardSummary := summaryRowFor [scoredA] "Sapphire Preferred"

theorem sumA_mem : sumA ∈ compute_points_summary (compute_points_scored rulesA [rowA]) := by
  rw [scored_singleton rulesA rowA "Sapphire Preferred" (by decide) (by decide)]
  show sumA ∈ compute_points_summary [scoredA]
  rw [compute_points_summary]
  rw [show ([scoredA].map (fun t => t.card_mapped)).dedup = [scoredA.card_mapped] by simp]
  rw [List.map_cons, List.map_nil]
  exact List.mem_singleton.mpr rfl

theorem sumA_earned : sumA.points_earned = 150 := by
  have h1 : sumA = summaryRowFor [scoredA] scoredA.card_mapped := rfl
  rw [h1, summaryRowFor_self]
  exact scoredA_earned

theorem sumA_missed : sumA.missed_points = 0 := by
  have h1 : sumA = summaryRowFor [scoredA] scoredA.card_mapped := rfl
  rw [h1, summaryRowFor_self]
  exact scoredA_missed

/-- Witness for C6's amended claim on the concrete dining pipeline. -/
theorem c6_witness :
    sumA.optimization_rate
      = some (round1 (sumA.points_earned
          / (sumA.points_earned + sumA.missed_points) * 100)) :=
  c6_amended_optimization_rate (compute_points_scored rulesA [rowA]) sumA sumA_mem
    (by rw [sumA_earned, sumA_missed]; norm_num)

end PointsPilot
